import Mathlib

/-!
Verification of the value-to-source compiler and group artifact emitter of
kube-codegen (pkg/generator/crd) and the generator-selection logic
(pkg/cli, EnabledGenerators), via a shallow embedding in Lean.

The embedding mirrors the Go source:
  - `generateValue`, `generatePtrValue`, `generateStructValue`,
    `generateStructWithUnexportedField`, `generateType`,
    `generateLiteralValue`, `generatePtrLiteralValue`,
    `generateBuiltinLiteralValue`, `Capitalize`  (value.go)
  - `GenerateGroup`, `Generate` and the protected-group annotation loop
    (generator.go), with the Go map iteration order made explicit as the
    order of an association list
  - `EnabledGenerators` (clientgen.go), with goset sets as `Finset String`.

Statements produced by the jennifer library (`jen.Statement`) are modelled
as token lists (`Stmt`).  jennifer renders a `jen.Dict` with its entries
sorted by the rendered key text; that external behaviour is modelled by
sorting dict entries at construction time (`sortEntries`).
-/

namespace KubeCodegen

/-- Scalar literal payloads.  Go float values are modelled by their (exact)
integer payloads; no claim depends on non-integral float values. -/
inductive Lit where
  | bool (b : Bool)
  | int (n : Int)
  | str (s : String)
deriving DecidableEq, Repr

/-- The scalar kinds accepted by reflection.IsLiteralType / the switch in
generateBuiltinLiteralValue: booleans, the integer kinds, the float kinds,
string and uintptr. -/
inductive ScalarKind where
  | bool | int | int8 | int16 | int32 | int64
  | uint | uint8 | uint16 | uint32 | uint64
  | float32 | float64 | string | uintptr
deriving DecidableEq, Repr

/-- reflect.Kind.String() for the scalar kinds. -/
def kindString : ScalarKind → String
  | .bool => "bool"
  | .int => "int"
  | .int8 => "int8"
  | .int16 => "int16"
  | .int32 => "int32"
  | .int64 => "int64"
  | .uint => "uint"
  | .uint8 => "uint8"
  | .uint16 => "uint16"
  | .uint32 => "uint32"
  | .uint64 => "uint64"
  | .float32 => "float32"
  | .float64 => "float64"
  | .string => "string"
  | .uintptr => "uintptr"

/-- Embedding of Capitalize (value.go): uppercase the first rune when it is
an ASCII lowercase letter; the empty string maps to itself. -/
def Capitalize (str : String) : String :=
  if str.length < 1 then ""
  else
    match str.data with
    | [] => ""
    | c :: rest =>
      if 97 ≤ c.toNat ∧ c.toNat ≤ 122 then String.mk (Char.ofNat (c.toNat - 32) :: rest)
      else String.mk (c :: rest)

/-- One token of a jennifer statement.  A `jen.Statement` is a token list;
composite constructs carry their sub-statements. -/
inductive Tok where
  | raw (s : String)
  | id (s : String)
  | op (s : String)
  | qual (pkg name : String)
  | lit (l : Lit)
  | line
  | parens (inner : List Tok)
  | call (args : List (List Tok))
  | brack (args : List (List Tok))
  | mapKey (k : List Tok)
  | values (items : List (List Tok))
  | dict (entries : List (List Tok × List Tok))
  | block (stmts : List (List Tok))
  | structFields (fields : List (List Tok))

/-- A jen.Statement: a list of tokens. -/
abbrev Stmt := List Tok

/-- Source text of a literal token. -/
def renderLit : Lit → String
  | .bool true => "true"
  | .bool false => "false"
  | .int n => toString n
  | .str s => "\"" ++ s ++ "\""

mutual
/-- Source text of one token (model of jennifer rendering; the exact
separators are irrelevant, only determinism and injectivity on the literal
payloads matter). -/
def renderTok : Tok → String
  | .raw s => s
  | .id s => s
  | .op s => s
  | .qual p n => p ++ "." ++ n
  | .lit l => renderLit l
  | .line => "\n"
  | .parens i => "(" ++ renderStmt i ++ ")"
  | .call args => "(" ++ renderStmts args ++ ")"
  | .brack args => "[" ++ renderStmts args ++ "]"
  | .mapKey k => "map[" ++ renderStmt k ++ "]"
  | .values items => "\x7b" ++ renderStmts items ++ "\x7d"
  | .dict es => "\x7b" ++ renderEntries es ++ "\x7d"
  | .block ss => "\x7b" ++ renderStmts ss ++ "\x7d"
  | .structFields fs => "struct\x7b" ++ renderStmts fs ++ "\x7d"

/-- Source text of a statement. -/
def renderStmt : List Tok → String
  | [] => ""
  | t :: ts => renderTok t ++ renderStmt ts

/-- Source text of a comma-separated group. -/
def renderStmts : List (List Tok) → String
  | [] => ""
  | s :: ss => renderStmt s ++ "," ++ renderStmts ss

/-- Source text of dict entries. -/
def renderEntries : List (List Tok × List Tok) → String
  | [] => ""
  | (k, v) :: es => renderStmt k ++ ":" ++ renderStmt v ++ "," ++ renderEntries es
end

/-- Kernel-reducible lexicographic comparison of char lists (ties broken by
length), used to model jennifer ordering dict entries by rendered key. -/
def charsLeB : List Char → List Char → Bool
  | [], _ => true
  | _ :: _, [] => false
  | a :: as, b :: bs => if a = b then charsLeB as bs else decide (a < b)

/-- Kernel-reducible string comparison. -/
def strLeB (a b : String) : Bool := charsLeB a.data b.data

/-- Rendered key of a dict entry. -/
def entryKey (e : Stmt × Stmt) : String := renderStmt e.1

/-- Order on dict entries: by rendered key text. -/
def entryLE (a b : Stmt × Stmt) : Prop := strLeB (entryKey a) (entryKey b) = true

instance : DecidableRel entryLE := fun _ _ => inferInstanceAs (Decidable (_ = true))

/-- Modelled from jennifer's documented behaviour: a `jen.Dict` renders its
entries sorted by the rendered key source text.  The Go side inserts into the
dict in map-iteration order; the sort makes the rendered output independent
of that order. -/
def sortEntries (es : List (Stmt × Stmt)) : List (Stmt × Stmt) :=
  List.insertionSort entryLE es

/-- A Go type as seen by the reflection walk in value.go.  `custom` on a
scalar is `some (pkgPath, name)` exactly when reflection.IsCustomType holds
(a user-defined named type); a struct type is anonymous when its name is
empty (reflection.IsAnonymousStruct).  `marshalerPair` records whether the
struct type or its pointer type implements both json.Marshaler and
json.Unmarshaler.  Struct fields are (name, exported, type). -/
inductive GoType where
  | scalar (k : ScalarKind) (custom : Option (String × String))
  | ptr (elem : GoType)
  | slice (elem : GoType)
  | array (n : Nat) (elem : GoType)
  | mapT (key val : GoType)
  | structT (pkgPath name : String) (marshalerPair : Bool) (fields : List (String × Bool × GoType))
  | chanT (elem : GoType)
  | funcT

/-- A Go value as walked by reflect.Value.  Nil-ness of pointers, slices,
maps, chans and funcs is explicit.  Map entries are listed in Go map
iteration order (which the language does not fix).  `marshalText` on a
struct is the result of json.Marshal on the full value: `some s` on success,
`none` on failure.  Struct fields are (name, exported, declared type, value). -/
inductive GoValue where
  | scalar (k : ScalarKind) (custom : Option (String × String)) (l : Lit)
  | ptrNil (elem : GoType)
  | ptrSome (pointee : GoValue)
  | sliceV (elemTy : GoType) (isNil : Bool) (elems : List GoValue)
  | arrayV (elemTy : GoType) (elems : List GoValue)
  | mapV (keyTy valTy : GoType) (isNil : Bool) (entries : List (GoValue × GoValue))
  | structV (pkgPath name : String) (marshalerPair : Bool) (marshalText : Option String)
      (fields : List (String × Bool × GoType × GoValue))
  | chanV (elemTy : GoType) (isNil : Bool)
  | funcV (isNil : Bool)

/-- Types of the fields of a struct value. -/
def fieldsTypes (fs : List (String × Bool × GoType × GoValue)) : List (String × Bool × GoType) :=
  fs.map (fun f => (f.1, f.2.1, f.2.2.1))

/-- reflect.Value.Type(): the runtime type of a value. -/
def valueType : GoValue → GoType
  | .scalar k custom _ => .scalar k custom
  | .ptrNil elem => .ptr elem
  | .ptrSome pointee => .ptr (valueType pointee)
  | .sliceV elemTy _ _ => .slice elemTy
  | .arrayV elemTy es => .array es.length elemTy
  | .mapV kt vt _ _ => .mapT kt vt
  | .structV pkg name mp _ fs => .structT pkg name mp (fieldsTypes fs)
  | .chanV elemTy _ => .chanT elemTy
  | .funcV _ => .funcT

/-- reflection.IsLiteralType: the scalar kinds handled by the literal
renderer (bool, the integer kinds, the float kinds, string, uintptr). -/
def isLiteralType : GoType → Bool
  | .scalar _ _ => true
  | _ => false

/-- reflection.IsCustomType: a named, user-defined scalar type. -/
def isCustomType : GoType → Bool
  | .scalar _ custom => custom.isSome
  | _ => false

/-- reflection.IsAnonymousStruct on a type: a struct type with empty name. -/
def isAnonymousStructType : GoType → Bool
  | .structT _ name _ _ => name == ""
  | _ => false

/-- Zero-ness of a literal payload. -/
def litZero : Lit → Bool
  | .bool b => !b
  | .int n => n == 0
  | .str s => s == ""

mutual
/-- reflect.Value.IsZero: scalars compare against the kind's zero value,
pointers/slices/maps/chans/funcs are zero when nil, arrays and structs when
all components are. -/
def isZero : GoValue → Bool
  | .scalar _ _ l => litZero l
  | .ptrNil _ => true
  | .ptrSome _ => false
  | .sliceV _ isNil _ => isNil
  | .arrayV _ es => valuesZero es
  | .mapV _ _ isNil _ => isNil
  | .structV _ _ _ _ fs => fieldsZero fs
  | .chanV _ isNil => isNil
  | .funcV isNil => isNil

/-- All values in a list are zero. -/
def valuesZero : List GoValue → Bool
  | [] => true
  | v :: rest => isZero v && valuesZero rest

/-- All field values are zero. -/
def fieldsZero : List (String × Bool × GoType × GoValue) → Bool
  | [] => true
  | f :: rest => isZero f.2.2.2 && fieldsZero rest
end

/-- reflection.HasUnexportedField on the struct's field list. -/
def hasUnexportedFields (fs : List (String × Bool × GoType × GoValue)) : Bool :=
  fs.any (fun f => !f.2.1)

/-- Embedding of generateType (value.go). -/
def generateType : GoType → Option Stmt
  | .ptr e => some (Tok.op "*" :: ((generateType e).getD []))
  | .slice e => some (Tok.brack [] :: ((generateType e).getD []))
  | .array n e => some (Tok.brack [[Tok.lit (.int (n : Int))]] :: ((generateType e).getD []))
  | .mapT k v => some (Tok.mapKey ((generateType k).getD []) :: ((generateType v).getD []))
  | .structT pkg name _ _ => some [Tok.qual pkg name]
  | .chanT e => some (Tok.raw "chan" :: ((generateType e).getD []))
  | .funcT => none
  | .scalar k custom =>
    match custom with
    | some (pkg, name) => some [Tok.qual pkg name]
    | none => some [Tok.id (kindString k)]

/-- Embedding of generateBuiltinLiteralValue (value.go): jen.Lit of the
scalar payload.  The Go switch converts the payload to the value's exact
width before passing it to jen.Lit; on the modelled payloads these
conversions are the identity. -/
def generateBuiltinLiteralValue (v : GoValue) : Stmt :=
  match v with
  | .scalar k _ l =>
    match k with
    | .bool => [Tok.lit l]
    | .int => [Tok.lit l]
    | .int8 => [Tok.lit l]
    | .int16 => [Tok.lit l]
    | .int32 => [Tok.lit l]
    | .int64 => [Tok.lit l]
    | .uint => [Tok.lit l]
    | .uint8 => [Tok.lit l]
    | .uint16 => [Tok.lit l]
    | .uint32 => [Tok.lit l]
    | .uint64 => [Tok.lit l]
    | .float32 => [Tok.lit l]
    | .float64 => [Tok.lit l]
    | .string => [Tok.lit l]
    | .uintptr => [Tok.lit l]
  | _ => [Tok.raw "nil"]

/-- Embedding of generateLiteralValue (value.go): the builtin literal,
wrapped in an explicit conversion `TypeName(lit)` when the type is custom. -/
def generateLiteralValue (v : GoValue) : Option Stmt :=
  if isLiteralType (valueType v) then
    match v with
    | .scalar k (some (pkg, name)) l =>
      some [Tok.qual pkg name, Tok.parens (generateBuiltinLiteralValue (.scalar k (some (pkg, name)) l))]
    | _ => some (generateBuiltinLiteralValue v)
  else none

/-- Import path of the pointer-helper package used by value.go. -/
def pointerPkg : String := "github.com/zoumo/golib/pointer"

/-- Embedding of generatePtrLiteralValue (value.go): a pointer-of helper
call on the literal, cast to `(*TypeName)(...)` when the scalar type is
custom. -/
def generatePtrLiteralValue : GoValue → Option Stmt
  | .scalar k custom l =>
    let value := generateBuiltinLiteralValue (.scalar k custom l)
    let p : Stmt := [Tok.qual pointerPkg (Capitalize (kindString k)), Tok.call [value]]
    match custom with
    | some (pkg, name) => some [Tok.parens [Tok.op "*", Tok.qual pkg name], Tok.parens p]
    | none => some p
  | _ => none

/-- Embedding of generateStructWithUnexportedField (value.go).  When the
struct type (or its pointer type) implements both json.Marshaler and
json.Unmarshaler, it emits an immediately invoked zero-argument function
whose body embeds the json.Marshal text, deserializes it into a local
variable and returns it (or its address).  The error of json.Marshal is
DISCARDED by the source (`jsonBytes, _ := json.Marshal(...)`): on failure
the embedded text is string(nil) = "".  Without the marshaler pair the
function returns nil. -/
def generateStructWithUnexportedField (v : GoValue) (ptrResult : Bool) : Option Stmt :=
  match v with
  | .structV pkg name mp mt _ =>
    if mp then
      let jsonStr := mt.getD ""
      let structS : Stmt := [Tok.qual pkg name]
      some ([Tok.raw "func", Tok.call []]
        ++ (if ptrResult then [Tok.op "*"] else [])
        ++ structS
        ++ [Tok.block
             [[Tok.id "jsonStr", Tok.op ":=", Tok.lit (.str jsonStr)],
              [Tok.raw "var", Tok.id "obj"] ++ structS,
              [Tok.qual "encoding/json" "Unmarshal",
               Tok.call [[Tok.brack [], Tok.raw "byte", Tok.parens [Tok.id "jsonStr"]],
                         [Tok.op "&", Tok.id "obj"]]],
              (if ptrResult then [Tok.raw "return", Tok.op "&", Tok.id "obj"]
               else [Tok.raw "return", Tok.id "obj"])],
            Tok.call []])
    else none
  | _ => none

/-- Field list of the synthesized inline type for an anonymous struct
(generateStructValue, jen.StructFunc branch): every field, exported or not,
as `Name Type`. -/
def anonFieldDecls (fs : List (String × Bool × GoType × GoValue)) : List Stmt :=
  fs.map (fun f => Tok.id f.1 :: ((generateType f.2.2.1).getD []))

/-- Assembly of the composite-literal form of a struct value
(generateStructValue, visible-field path): the type expression (inline
field list when anonymous), prefixed by `&` when ptrResult, dropped
entirely when omitType, followed by the braces with the (sorted) field
entries. -/
def structAssemble (pkg name : String) (fs : List (String × Bool × GoType × GoValue))
    (entries : List (Stmt × Stmt)) (ptrResult omitType : Bool) : Stmt :=
  let ts : Stmt := if name == "" then [Tok.structFields (anonFieldDecls fs)] else [Tok.qual pkg name]
  let ts := if ptrResult then Tok.op "&" :: ts else ts
  let ts := if omitType then [] else ts
  ts ++ [Tok.dict (sortEntries entries)]

mutual
/-- Embedding of generateValue (value.go).  The source first returns
generateLiteralValue(v) when reflection.IsLiteralType holds, which is
exactly the scalar case; it delegates its Ptr case to generatePtrValue and
its Struct case to generateStructValue.  The Ptr delegation is carried by
the mutual helper genPtrPointee (applied to the dereferenced pointee) so
that the recursion is structural; the source-shaped generatePtrValue and
generateStructValue are defined below and proved to agree with this
definition by the dispatch lemmas generateValue_ptr_dispatch and
generateValue_struct_dispatch. -/
def generateValue : GoValue → Bool → Option Stmt
  | .scalar k custom l, _ => generateLiteralValue (.scalar k custom l)
  | .ptrNil _, _ => none
  | .ptrSome pointee, omitType => genPtrPointee pointee omitType
  | .sliceV ty _ es, omitType =>
    some ((if omitType then [] else (generateType (.slice ty)).getD []) ++
      [Tok.values (genElems es ++ (if es.isEmpty then [] else [[Tok.line]]))])
  | .arrayV ty es, omitType =>
    some ((if omitType then [] else (generateType (.array es.length ty)).getD []) ++
      [Tok.values (genElems es ++ (if es.isEmpty then [] else [[Tok.line]]))])
  | .mapV kt vt _ entries, omitType =>
    some ((if omitType then [] else (generateType (.mapT kt vt)).getD []) ++
      [Tok.dict (sortEntries (genEntries entries))])
  | .structV pkg name mp mt fs, omitType =>
    match (if hasUnexportedFields fs
           then generateStructWithUnexportedField (.structV pkg name mp mt fs) false
           else none) with
    | some j => some j
    | none => some (structAssemble pkg name fs (fieldEntries fs) false omitType)
  | .chanV _ _, _ => none
  | .funcV _, _ => none

/-- The body of generatePtrValue on a dereferenced (non-nil) pointee: a
literal-typed pointee delegates to generatePtrLiteralValue, a struct
pointee is rendered with ptrResult=true, anything else is rendered with
omitType=false and prefixed with the address-of operator (inlined here per
pointee constructor; the address-of arm of each constructor is the
corresponding generateValue case with omitType=false). -/
def genPtrPointee : GoValue → Bool → Option Stmt
  | .scalar k custom l, _ => generatePtrLiteralValue (.scalar k custom l)
  | .structV pkg name mp mt fs, omitType =>
    match (if hasUnexportedFields fs
           then generateStructWithUnexportedField (.structV pkg name mp mt fs) true
           else none) with
    | some j => some j
    | none => some (structAssemble pkg name fs (fieldEntries fs) true omitType)
  | .ptrNil _, _ => some [Tok.op "&"]
  | .ptrSome p2, _ => some (Tok.op "&" :: ((genPtrPointee p2 false).getD []))
  | .sliceV ty _ es, _ =>
    some (Tok.op "&" :: (((generateType (.slice ty)).getD []) ++
      [Tok.values (genElems es ++ (if es.isEmpty then [] else [[Tok.line]]))]))
  | .arrayV ty es, _ =>
    some (Tok.op "&" :: (((generateType (.array es.length ty)).getD []) ++
      [Tok.values (genElems es ++ (if es.isEmpty then [] else [[Tok.line]]))]))
  | .mapV kt vt _ entries, _ =>
    some (Tok.op "&" :: (((generateType (.mapT kt vt)).getD []) ++
      [Tok.dict (sortEntries (genEntries entries))]))
  | .chanV _ _, _ => some [Tok.op "&"]
  | .funcV _, _ => some [Tok.op "&"]

/-- Sequence elements of a slice/array literal: each element is rendered on
its own line with omitType=true. -/
def genElems : List GoValue → List Stmt
  | [] => []
  | e :: rest => (Tok.line :: ((generateValue e true).getD [])) :: genElems rest

/-- Mapping entries: keys rendered with omitType=false, values with
omitType=true, in map iteration order. -/
def genEntries : List (GoValue × GoValue) → List (Stmt × Stmt)
  | [] => []
  | (k, w) :: rest =>
    (((generateValue k false).getD []), ((generateValue w true).getD [])) :: genEntries rest

/-- Field entries of a struct composite literal: a field contributes an
entry exactly when it is exported, not of an anonymous-struct type, and not
holding its zero value. -/
def fieldEntries : List (String × Bool × GoType × GoValue) → List (Stmt × Stmt)
  | [] => []
  | (n, ex, fty, fv) :: rest =>
    if !ex || isAnonymousStructType fty then fieldEntries rest
    else if isZero fv then fieldEntries rest
    else ([Tok.id n], (generateValue fv false).getD []) :: fieldEntries rest
end

/-- Embedding of generateStructValue (value.go): nil for non-structs; when
the struct has an unexported field and the opaque fallback applies, its
result is returned; otherwise the composite literal with the visible,
non-anonymous, non-zero fields. -/
def generateStructValue (v : GoValue) (ptrResult omitType : Bool) : Option Stmt :=
  match v with
  | .structV pkg name mp mt fs =>
    match (if hasUnexportedFields fs
           then generateStructWithUnexportedField (.structV pkg name mp mt fs) ptrResult
           else none) with
    | some j => some j
    | none => some (structAssemble pkg name fs (fieldEntries fs) ptrResult omitType)
  | _ => none

/-- Embedding of generatePtrValue (value.go), with the source's shape: nil
for non-pointers; a pointer to a literal-typed value delegates to
generatePtrLiteralValue; a pointer to a struct delegates to
generateStructValue with ptrResult=true; otherwise the pointee is rendered
and prefixed with the address-of operator.  (When omitType is set the
source additionally calls generateValue(v.Elem(), true) and discards the
result, which has no effect.)  On a nil pointer the source dereferences it
and panics (spec §9 leaves this case open); the model returns none. -/
def generatePtrValue (v : GoValue) (omitType : Bool) : Option Stmt :=
  match v with
  | .ptrSome pointee =>
    if isLiteralType (valueType pointee) then generatePtrLiteralValue pointee
    else
      match pointee with
      | .structV pkg name mp mt fs => generateStructValue (.structV pkg name mp mt fs) true omitType
      | _ => some (Tok.op "&" :: ((generateValue pointee false).getD []))
  | .ptrNil _ => none
  | _ => none

/-- Embedding of GenerateValue (value.go): the top-level entry renders with
omitType=false. -/
def GenerateValue (v : GoValue) : Option Stmt := generateValue v false

/-- Strict version of the dict-entry order; on entry lists whose rendered
keys are distinct it agrees with entryLE. -/
def entryLT (a b : Stmt × Stmt) : Prop := entryLE a b ∧ entryKey a ≠ entryKey b

mutual
/-- Whether a token contains the string literal `key` anywhere inside. -/
def tokHasLit (key : String) : Tok → Bool
  | .lit (.str s) => s == key
  | .parens i => stmtHasLit key i
  | .call args => stmtsHasLit key args
  | .brack args => stmtsHasLit key args
  | .mapKey k => stmtHasLit key k
  | .values items => stmtsHasLit key items
  | .dict es => entriesHasLit key es
  | .block ss => stmtsHasLit key ss
  | .structFields fs => stmtsHasLit key fs
  | _ => false

/-- Whether a statement contains the string literal `key`. -/
def stmtHasLit (key : String) : List Tok → Bool
  | [] => false
  | t :: ts => tokHasLit key t || stmtHasLit key ts

/-- Whether any statement of a group contains the string literal `key`. -/
def stmtsHasLit (key : String) : List (List Tok) → Bool
  | [] => false
  | s :: ss => stmtHasLit key s || stmtsHasLit key ss

/-- Whether any dict entry contains the string literal `key`. -/
def entriesHasLit (key : String) : List (List Tok × List Tok) → Bool
  | [] => false
  | (k, v) :: es => stmtHasLit key k || stmtHasLit key v || entriesHasLit key es
end

/-- The annotation key injected for kubernetes-community-owned API groups
(generator.go, the api-approved annotation constant). -/
def kubeAPIApprovedKey : String := "api-approved.kubernetes.io"

/-- The annotation value injected by Generate. -/
def approvedURL : String := "https://github.com/kubernetes/enhancements/pull/1111"

/-- strings.HasSuffix, on runes (the protected suffixes are ASCII, so byte
and rune suffix tests agree). -/
def hasSuffixB (s suffix : String) : Bool := List.isSuffixOf suffix.data s.data

/-- The protected-group test of Generate (generator.go): the group name ends
in ".k8s.io" or ".kubernetes.io". -/
def protectedGroup (g : String) : Bool :=
  hasSuffixB g ".k8s.io" || hasSuffixB g ".kubernetes.io"

/-- A schema.GroupKind: the key of parser.CustomResourceDefinitions. -/
structure GroupKind where
  group : String
  kind : String
deriving DecidableEq, Repr

/-- Reduced model of the external apiextensions CustomResourceDefinition
object as consumed by generator.go: its Spec.Group, its Kind, its
ObjectMeta.Annotations entries (in map iteration order), and the rest of
the parsed payload as an arbitrary value rendered as the Spec field.  The
external type has only exported, non-anonymous fields and implements
neither json.Marshaler nor json.Unmarshaler. -/
structure CRDModel where
  group : String
  kind : String
  annotations : List (String × String)
  payload : GoValue

/-- Package path of the apiextensions v1 API used by generator.go. -/
def apiextPkg : String := "k8s.io/apiextensions-apiserver/pkg/apis/apiextensions/v1"

/-- Package path of metav1. -/
def metaPkg : String := "k8s.io/apimachinery/pkg/apis/meta/v1"

/-- The builtin string type. -/
def stringT : GoType := .scalar .string none

/-- A plain string value. -/
def strV (s : String) : GoValue := .scalar .string none (.str s)

/-- The map[string]string type of ObjectMeta.Annotations. -/
def annotationsType : GoType := .mapT stringT stringT

/-- The annotations map value; nil exactly when no entry is present. -/
def annotationsValue (entries : List (String × String)) : GoValue :=
  .mapV stringT stringT entries.isEmpty (entries.map (fun kv => (strV kv.1, strV kv.2)))

/-- Reduced ObjectMeta type (the claims only touch Annotations). -/
def objectMetaType : GoType :=
  .structT metaPkg "ObjectMeta" false [("Annotations", true, annotationsType)]

/-- Reduced ObjectMeta value. -/
def objectMetaValue (entries : List (String × String)) : GoValue :=
  .structV metaPkg "ObjectMeta" false none
    [("Annotations", true, annotationsType, annotationsValue entries)]

/-- The reflect value of a modelled CustomResourceDefinition. -/
def crdGoValue (c : CRDModel) : GoValue :=
  .structV apiextPkg "CustomResourceDefinition" false none
    [("ObjectMeta", true, objectMetaType, objectMetaValue c.annotations),
     ("Spec", true, valueType c.payload, c.payload)]

/-- The constructor body emitted per definition by GenerateGroup
(generator.go): GenerateValue applied to the address of the definition. -/
def renderCRD (c : CRDModel) : Option Stmt := GenerateValue (.ptrSome (crdGoValue c))

/-- The per-group artifact: the constructor functions in emission order and
the aggregator call list (NewCustomResourceDefinitions), also in emission
order. -/
structure GroupFile where
  funcs : List (String × Option Stmt)
  aggregator : List String

/-- Embedding of codeWriter.GenerateGroup (generator.go).  The source
iterates `for groupKind := range cw.parser.CustomResourceDefinitions`; Go
map iteration order is not specified, so the definitions are passed here as
an association list in iteration order.  Each matching definition yields a
constructor function New<Capitalized-Kind>CRD, and the aggregator collects
the constructor calls in the same order. -/
def GenerateGroup (group : String) (defs : List (GroupKind × CRDModel)) : GroupFile :=
  let rows := defs.filterMap (fun gc =>
    if gc.1.group == group then
      some ("New" ++ Capitalize gc.1.kind ++ "CRD", renderCRD gc.2)
    else none)
  { funcs := rows, aggregator := rows.map (fun r => r.1) }

/-- Embedding of the protected-group annotation loop of Generate
(generator.go): every definition whose Spec.Group ends in a protected
suffix has its annotations map REPLACED by the singleton approval
annotation; other definitions are untouched. -/
def injectApproval (defs : List (GroupKind × CRDModel)) : List (GroupKind × CRDModel) :=
  defs.map (fun gc =>
    (gc.1, if protectedGroup gc.2.group
           then { gc.2 with annotations := [(kubeAPIApprovedKey, approvedURL)] }
           else gc.2))

/-- Embedding of Generator.Generate (generator.go), genCRD path.  The
external collaborators are parameters: `metav1Pkg` is crd.FindMetav1 on the
roots (none when no root imports metav1), `kubeKinds` is the iteration
order of crd.FindKubeKinds, `defs` is parser.CustomResourceDefinitions in
iteration order.  When no metadata package or no kinds are found the
function returns success with no artifact.  Otherwise the annotation loop
runs once, before any group is rendered, and one artifact per (possibly
repeated) group of `kubeKinds` is written; the directory name derivation
from GroupVersions is external and modelled by the group name. -/
def Generate (metav1Pkg : Option Unit) (kubeKinds : List GroupKind)
    (defs : List (GroupKind × CRDModel)) : Except String (List (String × GroupFile)) :=
  match metav1Pkg with
  | none => Except.ok []
  | some _ =>
    if kubeKinds.isEmpty then Except.ok []
    else
      let injected := injectApproval defs
      Except.ok ((kubeKinds.map (fun gk => gk.group)).map
        (fun g => (g ++ "/zz.generated.crd.go", GenerateGroup g injected)))

/-- The fixed canonical generator order (clientgen.go). -/
def sortedValidGenerators : List String :=
  ["deepcopy", "defaulter", "conversion", "register", "install", "crd",
   "openapi", "protobuf", "client", "lister", "informer"]

/-- The loop body of EnabledGenerators over generatorsOptions: a "-name"
option adds to the disabled set, a "+name" option to the enabled set, and a
bare name to the target set; empty options are skipped. -/
def genOptStep (st : Finset String × Finset String × Finset String) (opt : String) :
    Finset String × Finset String × Finset String :=
  if opt.length = 0 then st
  else if opt.front = '-' then (insert (opt.drop 1) st.1, st.2.1, st.2.2)
  else if opt.front = '+' then (st.1, insert (opt.drop 1) st.2.1, st.2.2)
  else (st.1, st.2.1, insert opt st.2.2)

/-- Embedding of EnabledGenerators (clientgen.go), with goset sets as
finite sets of strings: disabled collects the default-disabled names; all
collects the default-enabled names, united with disabled at each loop step;
the options loop splits into disabled/enabled/target; when no bare name was
given the target defaults to all minus disabled plus enabled; the result is
the canonical generator list filtered by target membership. -/
def EnabledGenerators (defaultEnabledGenerators defaultDisabledGenerators
    generatorsOptions : List String) : List String :=
  let disabled : Finset String :=
    defaultDisabledGenerators.foldl (fun s g => insert g s) ∅
  let all : Finset String :=
    defaultEnabledGenerators.foldl (fun s g => insert g s ∪ disabled) ∅
  let st := generatorsOptions.foldl genOptStep (disabled, ∅, ∅)
  let disabled := st.1
  let enabled := st.2.1
  let target := st.2.2
  let target := if target.card = 0 then (all \ disabled) ∪ enabled else target
  sortedValidGenerators.filter (fun g => decide (g ∈ target))

/-- The names passed with a "+" in the options. -/
def plusOf (opts : List String) : Finset String :=
  (opts.filterMap (fun o =>
    if o.length ≠ 0 ∧ o.front = '+' then some (o.drop 1) else none)).toFinset

/-- The names passed with a "-" in the options. -/
def minusOf (opts : List String) : Finset String :=
  (opts.filterMap (fun o =>
    if o.length ≠ 0 ∧ o.front = '-' then some (o.drop 1) else none)).toFinset

/-- The bare (un-prefixed) names in the options. -/
def bareOf (opts : List String) : Finset String :=
  (opts.filter (fun o => decide (o.length ≠ 0 ∧ o.front ≠ '-' ∧ o.front ≠ '+'))).toFinset

/-- Modelled from the spec: "effective = (default_enabled ∪ explicit_plus)
\ (default_disabled ∪ explicit_minus), with defaulting only applied when no
bare (un-prefixed) name is given, in which case bare names replace the
whole set". -/
def specEffectiveGenerators (E D opts : List String) : Finset String :=
  if bareOf opts = ∅ then (E.toFinset ∪ plusOf opts) \ (D.toFinset ∪ minusOf opts)
  else bareOf opts

/-- The effective set the code actually computes: explicit plus names are
united AFTER the difference, so "+name" wins over any disable. -/
def goEffectiveGenerators (E D opts : List String) : Finset String :=
  if bareOf opts = ∅ then (E.toFinset \ (D.toFinset ∪ minusOf opts)) ∪ plusOf opts
  else bareOf opts

/-- A field named f contributes an entry to the composite literal: it is
present, exported, not of an anonymous-struct type, and non-zero. -/
def fieldRendered (fs : List (String × Bool × GoType × GoValue)) (f : String) : Bool :=
  fs.any (fun fl => fl.1 == f && fl.2.1 && !isAnonymousStructType fl.2.2.1 && !isZero fl.2.2.2)

/-- Every visible (exported, non-anonymous-typed) field holds its zero
value. -/
def allVisibleFieldsZero (fs : List (String × Bool × GoType × GoValue)) : Bool :=
  fs.all (fun fl => !fl.2.1 || isAnonymousStructType fl.2.2.1 || isZero fl.2.2.2)

/-- True when a rendered expression is the immediately invoked function of
the opaque fallback: its head token is the keyword "func". -/
def isOpaqueIIFE : Option Stmt → Bool
  | some (t :: _) =>
    match t with
    | Tok.raw s => s == "func"
    | _ => false
  | _ => false

/-- True when a rendered expression is a direct composite literal: its last
token is the braces of a values or dict construct. -/
def isDirectComposite : Option Stmt → Bool
  | some ts =>
    match ts.getLast? with
    | some (Tok.dict _) => true
    | some (Tok.values _) => true
    | _ => false
  | none => false

/-- The builtin int type. -/
def intT : GoType := .scalar .int none

/-- A plain int value. -/
def intV (n : Int) : GoValue := .scalar .int none (.int n)

/-- Fields of a record with one private field, used as concrete input: the
record's type implements no marshaler pair. -/
def privFields : List (String × Bool × GoType × GoValue) :=
  [("hidden", false, intT, intV 7), ("Public", true, intT, intV 5)]

/-- A record value with a private field and no marshaler pair. -/
def privNoMarshal : GoValue := .structV "acme.io/pkg" "Secretive" false none privFields

/-- Fields of a record with only a private field. -/
def privOpaqueFields : List (String × Bool × GoType × GoValue) :=
  [("hidden", false, intT, intV 3)]

/-- A record value with a private field, a marshaler pair, and a FAILING
json.Marshal (marshalText = none). -/
def privMarshalFail : GoValue := .structV "acme.io/pkg" "Opaque" true none privOpaqueFields

/-- Concrete group kinds and definitions for the emitter claims. -/
def gkAlpha : GroupKind := ⟨"example.com", "alpha"⟩

/-- Second kind in the same group. -/
def gkBeta : GroupKind := ⟨"example.com", "beta"⟩

/-- Definition for gkAlpha. -/
def crdAlpha : CRDModel := ⟨"example.com", "alpha", [], intV 1⟩

/-- Definition for gkBeta. -/
def crdBeta : CRDModel := ⟨"example.com", "beta", [], intV 2⟩

/-- A kind whose definition's payload has a failing opaque marshal. -/
def gkThing : GroupKind := ⟨"example.com", "thing"⟩

/-- Its definition. -/
def crdThing : CRDModel := ⟨"example.com", "thing", [], privMarshalFail⟩

/-- A map in one Go iteration order. -/
def mapEntriesAB : List (GoValue × GoValue) := [(strV "a", intV 1), (strV "b", intV 2)]

/-- The same map in the other iteration order. -/
def mapEntriesBA : List (GoValue × GoValue) := [(strV "b", intV 2), (strV "a", intV 1)]

/-- Exported fields, one zero and one non-zero, for the field-elision
claim. -/
def sampleFields : List (String × Bool × GoType × GoValue) :=
  [("A", true, intT, intV 0), ("B", true, intT, intV 2)]

/-- The Ptr case of generateValue is exactly generatePtrValue. -/
theorem generateValue_ptr_dispatch (p : GoValue) (o : Bool) :
    generateValue (.ptrSome p) o = generatePtrValue (.ptrSome p) o := by
  cases p <;> rfl

/-- The Struct case of generateValue is exactly generateStructValue with
ptrResult=false. -/
theorem generateValue_struct_dispatch (pkg name : String) (mp : Bool) (mt : Option String)
    (fs : List (String × Bool × GoType × GoValue)) (o : Bool) :
    generateValue (.structV pkg name mp mt fs) o
      = generateStructValue (.structV pkg name mp mt fs) false o := rfl

theorem charsLeB_total (x : List Char) : ∀ y, charsLeB x y = true ∨ charsLeB y x = true := by
  induction x with
  | nil => intro y; left; rfl
  | cons a as ih =>
    intro y
    cases y with
    | nil => right; rfl
    | cons b bs =>
      by_cases hab : a = b
      · subst hab
        rcases ih bs with h | h
        · left; simpa [charsLeB] using h
        · right; simpa [charsLeB] using h
      · rcases lt_or_gt_of_ne hab with h | h
        · left; simp [charsLeB, hab, h]
        · right; simp [charsLeB, Ne.symm hab, h]

theorem charsLeB_trans (x : List Char) :
    ∀ y z, charsLeB x y = true → charsLeB y z = true → charsLeB x z = true := by
  induction x with
  | nil => intro y z _ _; rfl
  | cons a as ih =>
    intro y z hxy hyz
    cases y with
    | nil => simp [charsLeB] at hxy
    | cons b bs =>
      cases z with
      | nil => simp [charsLeB] at hyz
      | cons c cs =>
        by_cases hab : a = b
        · subst hab
          by_cases hbc : a = c
          · subst hbc
            simp only [charsLeB, if_pos rfl] at hxy hyz ⊢
            exact ih bs cs hxy hyz
          · simpa [charsLeB, hbc] using hyz
        · by_cases hbc : b = c
          · subst hbc
            simpa [charsLeB, hab] using hxy
          · simp only [charsLeB, if_neg hab, decide_eq_true_eq] at hxy
            simp only [charsLeB, if_neg hbc, decide_eq_true_eq] at hyz
            have hac : a < c := lt_trans hxy hyz
            simp [charsLeB, ne_of_lt hac, hac]

theorem charsLeB_antisymm (x : List Char) :
    ∀ y, charsLeB x y = true → charsLeB y x = true → x = y := by
  induction x with
  | nil =>
    intro y hxy hyx
    cases y with
    | nil => rfl
    | cons b bs => simp [charsLeB] at hyx
  | cons a as ih =>
    intro y hxy hyx
    cases y with
    | nil => simp [charsLeB] at hxy
    | cons b bs =>
      by_cases hab : a = b
      · subst hab
        simp only [charsLeB, if_pos rfl] at hxy hyx
        rw [ih bs hxy hyx]
      · simp only [charsLeB, if_neg hab, decide_eq_true_eq] at hxy
        simp only [charsLeB, if_neg (Ne.symm hab), decide_eq_true_eq] at hyx
        exact (lt_asymm hxy hyx).elim

theorem strLeB_total (a b : String) : strLeB a b = true ∨ strLeB b a = true :=
  charsLeB_total a.data b.data

theorem strLeB_trans {a b c : String} (h1 : strLeB a b = true) (h2 : strLeB b c = true) :
    strLeB a c = true :=
  charsLeB_trans a.data b.data c.data h1 h2

theorem strLeB_antisymm {a b : String} (h1 : strLeB a b = true) (h2 : strLeB b a = true) :
    a = b := by
  cases a with
  | mk da =>
    cases b with
    | mk db => exact congrArg String.mk (charsLeB_antisymm da db h1 h2)

theorem sortEntries_perm (es : List (Stmt × Stmt)) : (sortEntries es).Perm es :=
  List.perm_insertionSort entryLE es

theorem sortEntries_sorted_lt (es : List (Stmt × Stmt))
    (hnd : (es.map entryKey).Nodup) : List.Sorted entryLT (sortEntries es) := by
  haveI : IsTotal (Stmt × Stmt) entryLE := ⟨fun a b => strLeB_total (entryKey a) (entryKey b)⟩
  haveI : IsTrans (Stmt × Stmt) entryLE := ⟨fun _ _ _ h1 h2 => strLeB_trans h1 h2⟩
  have hle : List.Sorted entryLE (sortEntries es) := List.sorted_insertionSort entryLE es
  have hperm : ((sortEntries es).map entryKey).Perm (es.map entryKey) :=
    (sortEntries_perm es).map entryKey
  have hnd2 : ((sortEntries es).map entryKey).Nodup := hperm.nodup_iff.mpr hnd
  have hpne : List.Pairwise (fun a b : Stmt × Stmt => entryKey a ≠ entryKey b) (sortEntries es) :=
    List.pairwise_map.mp hnd2
  exact (hle.and hpne).imp (fun h => h)

/-- Dict rendering is a function of the entry multiset: two insertion orders
of the same entries (with distinct rendered keys) sort identically. -/
theorem sortEntries_eq_of_perm {es1 es2 : List (Stmt × Stmt)} (h : es1.Perm es2)
    (hnd : (es1.map entryKey).Nodup) : sortEntries es1 = sortEntries es2 := by
  haveI : IsAntisymm (Stmt × Stmt) entryLT :=
    ⟨fun _ _ hab hba => absurd (strLeB_antisymm hab.1 hba.1) hab.2⟩
  have hnd2 : (es2.map entryKey).Nodup := (h.map entryKey).nodup_iff.mp hnd
  exact List.eq_of_perm_of_sorted
    (((sortEntries_perm es1).trans h).trans (sortEntries_perm es2).symm)
    (sortEntries_sorted_lt es1 hnd) (sortEntries_sorted_lt es2 hnd2)

theorem stmtHasLit_append (key : String) (s t : Stmt) :
    stmtHasLit key (s ++ t) = (stmtHasLit key s || stmtHasLit key t) := by
  induction s with
  | nil => simp [stmtHasLit]
  | cons hd tl ih => simp [stmtHasLit, ih, Bool.or_assoc]

theorem entriesHasLit_of_mem {key : String} {e : Stmt × Stmt} :
    ∀ {es : List (Stmt × Stmt)}, e ∈ es →
    (stmtHasLit key e.1 || stmtHasLit key e.2) = true → entriesHasLit key es = true := by
  intro es
  induction es with
  | nil => intro hm; cases hm
  | cons hd tl ih =>
    intro hm h
    obtain ⟨k, v⟩ := hd
    rcases List.mem_cons.mp hm with he | hm2
    · subst he
      simp only [Bool.or_eq_true] at h
      simp only [entriesHasLit, Bool.or_eq_true]
      tauto
    · simp only [entriesHasLit, Bool.or_eq_true]
      have := ih hm2 h
      tauto

theorem fieldEntries_mem_iff (f : String) :
    ∀ fs, (∃ w, ([Tok.id f], w) ∈ fieldEntries fs) ↔ fieldRendered fs f = true := by
  intro fs
  induction fs with
  | nil =>
    constructor
    · rintro ⟨w, hw⟩; cases hw
    · intro h; exact absurd h (by simp [fieldRendered, fieldEntries])
  | cons hd tl ih =>
    obtain ⟨n, ex, ty, v⟩ := hd
    have hr : fieldRendered ((n, ex, ty, v) :: tl) f
        = ((n == f && ex && !isAnonymousStructType ty && !isZero v) || fieldRendered tl f) := by
      simp [fieldRendered]
    rw [hr]
    cases ex with
    | false =>
      have he : fieldEntries ((n, false, ty, v) :: tl) = fieldEntries tl := rfl
      rw [he, ih]
      simp
    | true =>
      cases hanon : isAnonymousStructType ty with
      | true =>
        have he : fieldEntries ((n, true, ty, v) :: tl) = fieldEntries tl := by
          rw [fieldEntries, if_pos (by simp [hanon])]
        rw [he, ih]
        simp [hanon]
      | false =>
        cases hz : isZero v with
        | true =>
          have he : fieldEntries ((n, true, ty, v) :: tl) = fieldEntries tl := by
            rw [fieldEntries, if_neg (by simp [hanon]), if_pos hz]
          rw [he, ih]
          simp [hanon, hz]
        | false =>
          have he : fieldEntries ((n, true, ty, v) :: tl)
              = ([Tok.id n], (generateValue v false).getD []) :: fieldEntries tl := by
            rw [fieldEntries, if_neg (by simp [hanon]), if_neg (by simp [hz])]
          rw [he]
          constructor
          · rintro ⟨w, hw⟩
            rcases List.mem_cons.mp hw with hw1 | hw2
            · have hn : f = n := by
                have h1 := congrArg Prod.fst hw1
                simpa using h1
              subst hn
              simp [hanon, hz]
            · have h2 := ih.mp ⟨w, hw2⟩
              simp [h2]
          · intro h
            cases hb : (n == f) with
            | true =>
              have hn : n = f := by simpa using hb
              subst hn
              exact ⟨(generateValue v false).getD [], List.mem_cons_self _ _⟩
            | false =>
              have h2 : fieldRendered tl f = true := by simpa [hb] using h
              obtain ⟨w, hw⟩ := ih.mpr h2
              exact ⟨w, List.mem_cons_of_mem _ hw⟩

theorem fieldEntries_nil_of_zero :
    ∀ fs, allVisibleFieldsZero fs = true → fieldEntries fs = [] := by
  intro fs
  induction fs with
  | nil => intro _; rfl
  | cons hd tl ih =>
    intro h
    obtain ⟨n, ex, ty, v⟩ := hd
    rw [allVisibleFieldsZero, List.all_cons, Bool.and_eq_true] at h
    obtain ⟨h1, h2⟩ := h
    have h2t : allVisibleFieldsZero tl = true := h2
    cases ex with
    | false =>
      rw [fieldEntries, if_pos (by simp)]
      exact ih h2t
    | true =>
      cases hanon : isAnonymousStructType ty with
      | true =>
        rw [fieldEntries, if_pos (by simp [hanon])]
        exact ih h2t
      | false =>
        have hz : isZero v = true := by simpa [hanon] using h1
        rw [fieldEntries, if_neg (by simp [hanon]), if_pos hz]
        exact ih h2t

theorem foldl_insert_eq (l : List String) :
    ∀ acc : Finset String, l.foldl (fun s g => insert g s) acc = acc ∪ l.toFinset := by
  induction l with
  | nil => intro acc; simp
  | cons a tl ih =>
    intro acc
    rw [List.foldl_cons, ih]
    ext x
    simp only [Finset.mem_union, Finset.mem_insert, List.toFinset_cons, List.mem_toFinset]
    tauto

theorem foldl_insert_union_mem (d : Finset String) (l : List String) :
    ∀ (acc : Finset String) (x : String),
      (x ∈ l.foldl (fun s g => insert g s ∪ d) acc ↔ x ∈ acc ∨ x ∈ l ∨ (l ≠ [] ∧ x ∈ d)) := by
  induction l with
  | nil => intro acc x; simp
  | cons a tl ih =>
    intro acc x
    rw [List.foldl_cons, ih]
    simp [List.mem_cons]
    tauto

set_option maxHeartbeats 1600000 in
theorem foldl_genOptStep_mem (opts : List String) :
    ∀ (st : Finset String × Finset String × Finset String) (x : String),
      (x ∈ (opts.foldl genOptStep st).1 ↔ x ∈ st.1 ∨ x ∈ minusOf opts)
      ∧ (x ∈ (opts.foldl genOptStep st).2.1 ↔ x ∈ st.2.1 ∨ x ∈ plusOf opts)
      ∧ (x ∈ (opts.foldl genOptStep st).2.2 ↔ x ∈ st.2.2 ∨ x ∈ bareOf opts) := by
  induction opts with
  | nil => intro st x; simp [minusOf, plusOf, bareOf]
  | cons o tl ih =>
    intro st x
    rw [List.foldl_cons]
    obtain ⟨h1, h2, h3⟩ := ih (genOptStep st o) x
    by_cases h0 : o.length = 0
    · have hgs : genOptStep st o = st := by simp [genOptStep, h0]
      rw [hgs] at h1 h2 h3 ⊢
      have hmm : minusOf (o :: tl) = minusOf tl := by
        simp [minusOf, List.filterMap_cons, h0]
      have hpp : plusOf (o :: tl) = plusOf tl := by
        simp [plusOf, List.filterMap_cons, h0]
      have hbb : bareOf (o :: tl) = bareOf tl := by
        simp [bareOf, List.filter_cons, h0]
      rw [hmm, hpp, hbb]
      exact ⟨h1, h2, h3⟩
    · by_cases hm : o.front = '-'
      · have hgs : genOptStep st o = (insert (o.drop 1) st.1, st.2.1, st.2.2) := by
          simp [genOptStep, h0, hm]
        rw [hgs] at h1 h2 h3 ⊢
        dsimp only at h1 h2 h3
        have hne : ¬o.front = '+' := by rw [hm]; decide
        have hmm : minusOf (o :: tl) = insert (o.drop 1) (minusOf tl) := by
          simp [minusOf, List.filterMap_cons, h0, hm]
        have hpp : plusOf (o :: tl) = plusOf tl := by
          simp [plusOf, List.filterMap_cons, h0, hne]
        have hbb : bareOf (o :: tl) = bareOf tl := by
          simp [bareOf, List.filter_cons, h0, hm]
        rw [hmm, hpp, hbb]
        refine ⟨?_, h2, h3⟩
        rw [h1]
        simp only [Finset.mem_insert]
        tauto
      · by_cases hp : o.front = '+'
        · have hgs : genOptStep st o = (st.1, insert (o.drop 1) st.2.1, st.2.2) := by
            simp [genOptStep, h0, hm, hp]
          rw [hgs] at h1 h2 h3 ⊢
          dsimp only at h1 h2 h3
          have hmm : minusOf (o :: tl) = minusOf tl := by
            simp [minusOf, List.filterMap_cons, h0, hm]
          have hpp : plusOf (o :: tl) = insert (o.drop 1) (plusOf tl) := by
            simp [plusOf, List.filterMap_cons, h0, hp]
          have hbb : bareOf (o :: tl) = bareOf tl := by
            simp [bareOf, List.filter_cons, h0, hp]
          rw [hmm, hpp, hbb]
          refine ⟨h1, ?_, h3⟩
          rw [h2]
          simp only [Finset.mem_insert]
          tauto
        · have hgs : genOptStep st o = (st.1, st.2.1, insert o st.2.2) := by
            simp [genOptStep, h0, hm, hp]
          rw [hgs] at h1 h2 h3 ⊢
          dsimp only at h1 h2 h3
          have hmm : minusOf (o :: tl) = minusOf tl := by
            simp [minusOf, List.filterMap_cons, h0, hm]
          have hpp : plusOf (o :: tl) = plusOf tl := by
            simp [plusOf, List.filterMap_cons, h0, hp]
          have hbb : bareOf (o :: tl) = insert o (bareOf tl) := by
            simp [bareOf, List.filter_cons, h0, hm, hp]
          rw [hmm, hpp, hbb]
          refine ⟨h1, h2, ?_⟩
          rw [h3]
          simp only [Finset.mem_insert]
          tauto

/-- C1 counterexample: GenerateGroup visits the definitions of a group in
the iteration order of the backing Go map, which is not specified and need
not be sorted by identifier; two valid iteration orders of the same
two-definition map yield different aggregator (and file) contents, so the
rendered group output is not byte-for-byte reproducible across runs and the
definitions are not visited in sorted order. -/
theorem GenerateGroup_not_sorted_cx :
    (GenerateGroup "example.com" [(gkBeta, crdBeta), (gkAlpha, crdAlpha)]).aggregator
        = ["NewBetaCRD", "NewAlphaCRD"]
    ∧ (GenerateGroup "example.com" [(gkAlpha, crdAlpha), (gkBeta, crdBeta)]).aggregator
        = ["NewAlphaCRD", "NewBetaCRD"]
    ∧ ¬ (GenerateGroup "example.com" [(gkBeta, crdBeta), (gkAlpha, crdAlpha)]).aggregator
        = (GenerateGroup "example.com" [(gkAlpha, crdAlpha), (gkBeta, crdBeta)]).aggregator := by
  refine ⟨rfl, rfl, by decide⟩

/-- C1 (amended): rendering a Mapping value is independent of the Go map
iteration order — the dict entries are sorted by rendered key text — so for
a fixed visit order of the Definitions the group output is reproducible,
Mapping-valued fields included; the Definitions themselves are visited in
map iteration order, not sorted by identifier. -/
theorem generateValue_map_iteration_order_irrelevant
    (kt vt : GoType) (b1 b2 o : Bool) (es1 es2 : List (GoValue × GoValue))
    (hperm : es1.Perm es2)
    (hnd : ((genEntries es1).map entryKey).Nodup) :
    generateValue (.mapV kt vt b1 es1) o = generateValue (.mapV kt vt b2 es2) o := by
  have hmap : ∀ es : List (GoValue × GoValue), genEntries es = es.map (fun kv =>
      ((generateValue kv.1 false).getD [], (generateValue kv.2 true).getD [])) := by
    intro es
    induction es with
    | nil => rfl
    | cons hd tlx ihx =>
      obtain ⟨k, w⟩ := hd
      simp [genEntries, ihx]
  have hp2 : (genEntries es1).Perm (genEntries es2) := by
    rw [hmap es1, hmap es2]
    exact hperm.map _
  simp only [generateValue]
  rw [sortEntries_eq_of_perm hp2 hnd]

/-- C1 witness: two iteration orders of the same two-entry map render
identically. -/
theorem generateValue_map_iteration_order_irrelevant_witness :
    mapEntriesAB.Perm mapEntriesBA
    ∧ ((genEntries mapEntriesAB).map entryKey).Nodup
    ∧ generateValue (.mapV stringT intT false mapEntriesAB) false
        = generateValue (.mapV stringT intT false mapEntriesBA) false := by
  have hperm : mapEntriesAB.Perm mapEntriesBA := List.Perm.swap _ _ _
  have hnd : ((genEntries mapEntriesAB).map entryKey).Nodup := by decide
  exact ⟨hperm, hnd,
    generateValue_map_iteration_order_irrelevant stringT intT false false false
      mapEntriesAB mapEntriesBA hperm hnd⟩

/-- C2 counterexample: a Record with a private field whose type does NOT
implement the json marshaler pair falls through to a direct composite
literal of its visible fields — it is not rendered as an invoked
zero-argument function. -/
theorem private_field_composite_cx :
    hasUnexportedFields privFields = true
    ∧ isOpaqueIIFE (generateStructValue privNoMarshal false false) = false
    ∧ isDirectComposite (generateStructValue privNoMarshal false false) = true := by
  exact ⟨rfl, rfl, rfl⟩

/-- C2 (amended): a Record with at least one private field WHOSE TYPE (or
its pointer type) implements both json.Marshaler and json.Unmarshaler is
never rendered as a direct composite literal: it always renders as the
opaque fallback, an immediately invoked zero-argument function. -/
theorem generateStructValue_opaque_iife (pkg name : String) (mt : Option String)
    (fs : List (String × Bool × GoType × GoValue)) (pr o : Bool)
    (h : hasUnexportedFields fs = true) :
    generateStructValue (.structV pkg name true mt fs) pr o
        = generateStructWithUnexportedField (.structV pkg name true mt fs) pr
    ∧ isOpaqueIIFE (generateStructValue (.structV pkg name true mt fs) pr o) = true := by
  have h1 : generateStructValue (.structV pkg name true mt fs) pr o
      = generateStructWithUnexportedField (.structV pkg name true mt fs) pr := by
    simp [generateStructValue, h, generateStructWithUnexportedField]
  refine ⟨h1, ?_⟩
  rw [h1]
  simp [generateStructWithUnexportedField, isOpaqueIIFE]

/-- C2 witness: a concrete private-stateful record with the marshaler pair
renders as the opaque IIFE. -/
theorem generateStructValue_opaque_iife_witness :
    generateStructValue (.structV "acme.io/pkg" "Opaque" true (some "x") privOpaqueFields)
        false false
      = generateStructWithUnexportedField
          (.structV "acme.io/pkg" "Opaque" true (some "x") privOpaqueFields) false
    ∧ isOpaqueIIFE (generateStructValue
        (.structV "acme.io/pkg" "Opaque" true (some "x") privOpaqueFields) false false)
      = true :=
  generateStructValue_opaque_iife "acme.io/pkg" "Opaque" (some "x") privOpaqueFields
    false false rfl

/-- C3 counterexample: when json.Marshal fails for a private-stateful
Record, the error is DISCARDED (`jsonBytes, _ := json.Marshal(...)`): the
record still renders — as the opaque function embedding the empty string —
and the group file is emitted in full, with no error anywhere.  The claim's
fatal-error propagation does not exist in the code: the value compiler has
no error channel at all. -/
theorem marshal_failure_no_error_cx :
    generateStructValue privMarshalFail false false
        = some [Tok.raw "func", Tok.call [], Tok.qual "acme.io/pkg" "Opaque",
            Tok.block
              [[Tok.id "jsonStr", Tok.op ":=", Tok.lit (.str "")],
               [Tok.raw "var", Tok.id "obj", Tok.qual "acme.io/pkg" "Opaque"],
               [Tok.qual "encoding/json" "Unmarshal",
                Tok.call [[Tok.brack [], Tok.raw "byte", Tok.parens [Tok.id "jsonStr"]],
                          [Tok.op "&", Tok.id "obj"]]],
               [Tok.raw "return", Tok.id "obj"]],
            Tok.call []]
    ∧ (GenerateGroup "example.com" [(gkThing, crdThing)]).funcs.map Prod.fst = ["NewThingCRD"]
    ∧ (GenerateGroup "example.com" [(gkThing, crdThing)]).funcs.map (fun r => r.2.isSome)
        = [true] := by
  exact ⟨rfl, rfl, rfl⟩

/-- C3 (amended): a serialization failure in the Opaque Record Fallback is
silently ignored: rendering succeeds (no error is propagated, there is no
error channel), the empty string is embedded as the serialized text, and
emission continues normally. -/
theorem generateStructValue_marshal_failure_silent (pkg name : String)
    (fs : List (String × Bool × GoType × GoValue)) (pr o : Bool)
    (h : hasUnexportedFields fs = true) :
    generateStructValue (.structV pkg name true none fs) pr o
        = generateStructWithUnexportedField (.structV pkg name true none fs) pr
    ∧ (generateStructValue (.structV pkg name true none fs) pr o).isSome = true
    ∧ stmtHasLit "" ((generateStructValue (.structV pkg name true none fs) pr o).getD [])
        = true := by
  have h1 : generateStructValue (.structV pkg name true none fs) pr o
      = generateStructWithUnexportedField (.structV pkg name true none fs) pr := by
    simp [generateStructValue, h, generateStructWithUnexportedField]
  refine ⟨h1, ?_, ?_⟩
  · rw [h1]
    simp [generateStructWithUnexportedField]
  · rw [h1]
    cases pr <;>
      simp [generateStructWithUnexportedField, stmtHasLit, tokHasLit, stmtsHasLit,
        stmtHasLit_append]

/-- C3 witness: a concrete failing marshal still renders, with "" embedded. -/
theorem generateStructValue_marshal_failure_silent_witness :
    generateStructValue (.structV "acme.io/pkg" "Opaque" true none privOpaqueFields)
        false false
      = generateStructWithUnexportedField
          (.structV "acme.io/pkg" "Opaque" true none privOpaqueFields) false
    ∧ (generateStructValue (.structV "acme.io/pkg" "Opaque" true none privOpaqueFields)
        false false).isSome = true
    ∧ stmtHasLit "" ((generateStructValue
        (.structV "acme.io/pkg" "Opaque" true none privOpaqueFields) false false).getD [])
      = true :=
  generateStructValue_marshal_failure_silent "acme.io/pkg" "Opaque" privOpaqueFields
    false false rfl

/-- C4: on the visible-field path (no opaque fallback), a field appears in
the emitted composite literal exactly when it is exported, not of an
anonymous-struct type, and not holding its zero value; when every visible
field is zero the literal has no entries. -/
theorem generateStructValue_field_inclusion (pkg name : String) (mp : Bool)
    (mt : Option String) (fs : List (String × Bool × GoType × GoValue)) (pr o : Bool)
    (f : String) (h : hasUnexportedFields fs = false ∨ mp = false) :
    generateStructValue (.structV pkg name mp mt fs) pr o
        = some (structAssemble pkg name fs (fieldEntries fs) pr o)
    ∧ ((∃ w, ([Tok.id f], w) ∈ sortEntries (fieldEntries fs)) ↔ fieldRendered fs f = true)
    ∧ (allVisibleFieldsZero fs = true → sortEntries (fieldEntries fs) = []) := by
  refine ⟨?_, ?_, ?_⟩
  · rcases h with h | h
    · simp [generateStructValue, h]
    · simp [generateStructValue, generateStructWithUnexportedField, h]
  · have hsp : ∀ w : Stmt, (([Tok.id f], w) ∈ sortEntries (fieldEntries fs))
        ↔ ([Tok.id f], w) ∈ fieldEntries fs :=
      fun _ => (sortEntries_perm (fieldEntries fs)).mem_iff
    constructor
    · rintro ⟨w, hw⟩
      exact (fieldEntries_mem_iff f fs).mp ⟨w, (hsp w).mp hw⟩
    · intro hf
      obtain ⟨w, hw⟩ := (fieldEntries_mem_iff f fs).mpr hf
      exact ⟨w, (hsp w).mpr hw⟩
  · intro hz
    rw [fieldEntries_nil_of_zero fs hz]
    rfl

/-- C4 witness: with one zero and one non-zero exported int field, only the
non-zero field appears. -/
theorem generateStructValue_field_inclusion_witness :
    (generateStructValue (.structV "p" "T" false none sampleFields) false false
        = some (structAssemble "p" "T" sampleFields (fieldEntries sampleFields) false false))
    ∧ ((∃ w, ([Tok.id "B"], w) ∈ sortEntries (fieldEntries sampleFields))
        ↔ fieldRendered sampleFields "B" = true)
    ∧ (allVisibleFieldsZero sampleFields = true → sortEntries (fieldEntries sampleFields) = []) :=
  generateStructValue_field_inclusion "p" "T" false none sampleFields false false "B"
    (Or.inl rfl)

/-- C5: a scalar of a custom named type renders as TypeName(literal), and a
non-nil pointer to such a scalar renders as a pointer-of helper call cast
to the pointer-to-named type. -/
theorem custom_named_literal_wrapping (k : ScalarKind) (pkg name : String) (l : Lit) :
    generateLiteralValue (.scalar k (some (pkg, name)) l)
        = some [Tok.qual pkg name, Tok.parens [Tok.lit l]]
    ∧ generatePtrLiteralValue (.scalar k (some (pkg, name)) l)
        = some [Tok.parens [Tok.op "*", Tok.qual pkg name],
                Tok.parens [Tok.qual pointerPkg (Capitalize (kindString k)),
                  Tok.call [[Tok.lit l]]]] := by
  constructor
  · cases k <;> rfl
  · cases k <;> rfl

/-- C6: generatePtrValue on a non-nil pointer delegates a scalar pointee to
generatePtrLiteralValue, renders a struct pointee with ptrResult=true, and
otherwise renders the pointee (omitType=false) behind an address-of
operator. -/
theorem generatePtrValue_kind_dispatch (o : Bool) :
    (∀ (k : ScalarKind) (c : Option (String × String)) (l : Lit),
      generatePtrValue (.ptrSome (.scalar k c l)) o = generatePtrLiteralValue (.scalar k c l))
    ∧ (∀ (pkg name : String) (mp : Bool) (mt : Option String)
        (fs : List (String × Bool × GoType × GoValue)),
      generatePtrValue (.ptrSome (.structV pkg name mp mt fs)) o
        = generateStructValue (.structV pkg name mp mt fs) true o)
    ∧ (∀ (ty : GoType) (b : Bool) (es : List GoValue),
      generatePtrValue (.ptrSome (.sliceV ty b es)) o
        = some (Tok.op "&" :: ((generateValue (.sliceV ty b es) false).getD [])))
    ∧ (∀ (ty : GoType) (es : List GoValue),
      generatePtrValue (.ptrSome (.arrayV ty es)) o
        = some (Tok.op "&" :: ((generateValue (.arrayV ty es) false).getD [])))
    ∧ (∀ (kt vt : GoType) (b : Bool) (es : List (GoValue × GoValue)),
      generatePtrValue (.ptrSome (.mapV kt vt b es)) o
        = some (Tok.op "&" :: ((generateValue (.mapV kt vt b es) false).getD [])))
    ∧ (∀ p : GoValue,
      generatePtrValue (.ptrSome (.ptrSome p)) o
        = some (Tok.op "&" :: ((generateValue (.ptrSome p) false).getD [])))
    ∧ (∀ e : GoType,
      generatePtrValue (.ptrSome (.ptrNil e)) o
        = some (Tok.op "&" :: ((generateValue (.ptrNil e) false).getD [])))
    ∧ (∀ (ty : GoType) (b : Bool),
      generatePtrValue (.ptrSome (.chanV ty b)) o
        = some (Tok.op "&" :: ((generateValue (.chanV ty b) false).getD [])))
    ∧ (∀ b : Bool,
      generatePtrValue (.ptrSome (.funcV b)) o
        = some (Tok.op "&" :: ((generateValue (.funcV b) false).getD []))) := by
  refine ⟨fun _ _ _ => rfl, fun _ _ _ _ _ => rfl, fun _ _ _ => rfl, fun _ _ => rfl,
    fun _ _ _ _ => rfl, fun _ => rfl, fun _ => rfl, fun _ _ => rfl, fun _ => rfl⟩

/-- Membership of a definition's constructor in its group file. -/
theorem GenerateGroup_mem_funcs {defs : List (GroupKind × CRDModel)} {gk : GroupKind}
    {c : CRDModel} (hmem : (gk, c) ∈ defs) :
    ("New" ++ Capitalize gk.kind ++ "CRD", renderCRD c)
      ∈ (GenerateGroup gk.group defs).funcs := by
  simp only [GenerateGroup]
  refine List.mem_filterMap.mpr ⟨(gk, c), hmem, ?_⟩
  simp

/-- Any definition whose annotations are exactly the injected approval
annotation renders with the approval key in its output. -/
theorem renderCRD_annotated_mentions (c : CRDModel)
    (hc : c.annotations = [(kubeAPIApprovedKey, approvedURL)]) :
    stmtHasLit kubeAPIApprovedKey ((renderCRD c).getD []) = true := by
  obtain ⟨g0, k0, a0, p0⟩ := c
  dsimp only at hc
  subst hc
  have hr : (renderCRD ⟨g0, k0, [(kubeAPIApprovedKey, approvedURL)], p0⟩).getD []
      = [Tok.op "&", Tok.qual apiextPkg "CustomResourceDefinition",
         Tok.dict (sortEntries (fieldEntries
           [("ObjectMeta", true, objectMetaType,
             objectMetaValue [(kubeAPIApprovedKey, approvedURL)]),
            ("Spec", true, valueType p0, p0)]))] := rfl
  rw [hr]
  have hfe : fieldEntries
      [("ObjectMeta", true, objectMetaType, objectMetaValue [(kubeAPIApprovedKey, approvedURL)]),
       ("Spec", true, valueType p0, p0)]
      = ([Tok.id "ObjectMeta"],
          (generateValue (objectMetaValue [(kubeAPIApprovedKey, approvedURL)]) false).getD [])
        :: fieldEntries [("Spec", true, valueType p0, p0)] := rfl
  have hmem : (([Tok.id "ObjectMeta"],
      (generateValue (objectMetaValue [(kubeAPIApprovedKey, approvedURL)]) false).getD [])
        : Stmt × Stmt)
      ∈ sortEntries (fieldEntries
          [("ObjectMeta", true, objectMetaType,
            objectMetaValue [(kubeAPIApprovedKey, approvedURL)]),
           ("Spec", true, valueType p0, p0)]) := by
    refine (sortEntries_perm _).mem_iff.mpr ?_
    rw [hfe]
    exact List.mem_cons_self _ _
  have hlit : (stmtHasLit kubeAPIApprovedKey ([Tok.id "ObjectMeta"] : Stmt)
      || stmtHasLit kubeAPIApprovedKey
          ((generateValue (objectMetaValue [(kubeAPIApprovedKey, approvedURL)]) false).getD []))
      = true := by decide
  have hE := entriesHasLit_of_mem hmem hlit
  simp [stmtHasLit, tokHasLit, hE]

/-- C7: the approval annotation is injected — once, before rendering — into
every definition whose Spec.Group ends in a protected suffix, and such a
definition's constructor in the group file renders with the annotation key;
a definition outside the protected suffixes passes through the injection
step unchanged, so its rendered constructor is that of the unmutated
definition. -/
theorem protected_namespace_approval_injected
    (defs : List (GroupKind × CRDModel)) (gk : GroupKind) (c : CRDModel)
    (hmem : (gk, c) ∈ defs) :
    (protectedGroup c.group = true →
      ("New" ++ Capitalize gk.kind ++ "CRD",
          renderCRD { c with annotations := [(kubeAPIApprovedKey, approvedURL)] })
        ∈ (GenerateGroup gk.group (injectApproval defs)).funcs
      ∧ stmtHasLit kubeAPIApprovedKey
          ((renderCRD { c with annotations := [(kubeAPIApprovedKey, approvedURL)] }).getD [])
          = true)
    ∧ (protectedGroup c.group = false →
      ("New" ++ Capitalize gk.kind ++ "CRD", renderCRD c)
        ∈ (GenerateGroup gk.group (injectApproval defs)).funcs) := by
  constructor
  · intro hp
    constructor
    · have hmem2 : (gk, { c with annotations := [(kubeAPIApprovedKey, approvedURL)] })
          ∈ injectApproval defs := by
        unfold injectApproval
        refine List.mem_map.mpr ⟨(gk, c), hmem, ?_⟩
        simp [hp]
      exact GenerateGroup_mem_funcs hmem2
    · exact renderCRD_annotated_mentions _ rfl
  · intro hp
    have hmem2 : (gk, c) ∈ injectApproval defs := by
      unfold injectApproval
      refine List.mem_map.mpr ⟨(gk, c), hmem, ?_⟩
      simp [hp]
    exact GenerateGroup_mem_funcs hmem2

/-- C7 witness: a concrete definition in the protected group
fleet.x.k8s.io is rendered with the injected approval annotation. -/
theorem protected_namespace_approval_injected_witness :
    ("New" ++ Capitalize "widget" ++ "CRD",
        renderCRD { group := "fleet.x.k8s.io", kind := "widget",
                    annotations := [(kubeAPIApprovedKey, approvedURL)], payload := intV 1 })
      ∈ (GenerateGroup "fleet.x.k8s.io"
          (injectApproval [(⟨"fleet.x.k8s.io", "widget"⟩,
            ⟨"fleet.x.k8s.io", "widget", [], intV 1⟩)])).funcs
    ∧ stmtHasLit kubeAPIApprovedKey
        ((renderCRD { group := "fleet.x.k8s.io", kind := "widget",
                      annotations := [(kubeAPIApprovedKey, approvedURL)],
                      payload := intV 1 }).getD []) = true :=
  (protected_namespace_approval_injected
    [(⟨"fleet.x.k8s.io", "widget"⟩, ⟨"fleet.x.k8s.io", "widget", [], intV 1⟩)]
    ⟨"fleet.x.k8s.io", "widget"⟩ ⟨"fleet.x.k8s.io", "widget", [], intV 1⟩
    (List.mem_cons_self _ _)).1 (by decide)

/-- C8: with no metadata package imported, or with no qualifying kinds,
Generate returns success and writes no artifact. -/
theorem generate_no_definitions_noop :
    (∀ (ks : List GroupKind) (defs : List (GroupKind × CRDModel)),
      Generate none ks defs = Except.ok [])
    ∧ (∀ defs : List (GroupKind × CRDModel), Generate (some ()) [] defs = Except.ok []) :=
  ⟨fun _ _ => rfl, fun _ => rfl⟩

/-- C9 counterexample: the spec formula (default_enabled ∪ explicit_plus) \
(default_disabled ∪ explicit_minus) disagrees with the code: the code
unites the explicit plus names AFTER the difference, so "-crd,+crd" leaves
crd enabled while the spec formula removes it. -/
theorem EnabledGenerators_spec_formula_cx :
    EnabledGenerators ["deepcopy"] [] ["-crd", "+crd"] = ["deepcopy", "crd"]
    ∧ sortedValidGenerators.filter
        (fun g => decide (g ∈ specEffectiveGenerators ["deepcopy"] [] ["-crd", "+crd"]))
        = ["deepcopy"]
    ∧ ¬ EnabledGenerators ["deepcopy"] [] ["-crd", "+crd"]
        = sortedValidGenerators.filter
            (fun g => decide (g ∈ specEffectiveGenerators ["deepcopy"] [] ["-crd", "+crd"])) := by
  refine ⟨by decide, by decide, by decide⟩

/-- C9 (amended): the effective generator set is (default_enabled \
(default_disabled ∪ explicit_minus)) ∪ explicit_plus — the plus names are
united after the difference — except that when at least one bare name is
given the bare names replace the whole set; the result is the canonical
generator order restricted to that set. -/
theorem EnabledGenerators_effective_set (E D opts : List String) :
    EnabledGenerators E D opts
      = sortedValidGenerators.filter (fun g => decide (g ∈ goEffectiveGenerators E D opts)) := by
  unfold EnabledGenerators
  dsimp only
  have hdis : D.foldl (fun s g => insert g s) (∅ : Finset String) = D.toFinset := by
    rw [foldl_insert_eq]
    exact Finset.empty_union _
  rw [hdis]
  have htgt : (opts.foldl genOptStep (D.toFinset, ∅, ∅)).2.2 = bareOf opts := by
    ext y
    obtain ⟨-, -, h3y⟩ := foldl_genOptStep_mem opts (D.toFinset, ∅, ∅) y
    rw [h3y]
    simp
  rw [htgt]
  apply List.filter_congr
  intro x _
  rw [decide_eq_decide]
  obtain ⟨h1, h2, -⟩ := foldl_genOptStep_mem opts (D.toFinset, ∅, ∅) x
  have hall := foldl_insert_union_mem D.toFinset E ∅ x
  by_cases hb : bareOf opts = ∅
  · rw [if_pos (by simp [hb]), goEffectiveGenerators, if_pos hb]
    simp only [Finset.mem_union, Finset.mem_sdiff, List.mem_toFinset]
    rw [h1, h2, hall]
    simp only [Finset.not_mem_empty, false_or, List.mem_toFinset]
    constructor
    · rintro (⟨ha, hnd⟩ | he)
      · rcases ha with ha | ⟨-, had⟩
        · exact Or.inl ⟨ha, hnd⟩
        · exact absurd (Or.inl had) hnd
      · exact Or.inr he
    · rintro (⟨ha, hnd⟩ | he)
      · exact Or.inl ⟨Or.inl ha, hnd⟩
      · exact Or.inr he
  · rw [if_neg (by simp [Finset.card_eq_zero, hb]), goEffectiveGenerators, if_neg hb]

/-- C10: for a non-nil pointer whose pointee is neither a scalar nor a
record, the omitType flag has no effect on generatePtrValue: both renderings
are the address-of-prefixed rendering of the pointee. -/
theorem generatePtrValue_omitType_no_effect :
    (∀ (ty : GoType) (b : Bool) (es : List GoValue),
      generatePtrValue (.ptrSome (.sliceV ty b es)) true
        = generatePtrValue (.ptrSome (.sliceV ty b es)) false)
    ∧ (∀ (ty : GoType) (es : List GoValue),
      generatePtrValue (.ptrSome (.arrayV ty es)) true
        = generatePtrValue (.ptrSome (.arrayV ty es)) false)
    ∧ (∀ (kt vt : GoType) (b : Bool) (es : List (GoValue × GoValue)),
      generatePtrValue (.ptrSome (.mapV kt vt b es)) true
        = generatePtrValue (.ptrSome (.mapV kt vt b es)) false)
    ∧ (∀ p : GoValue,
      generatePtrValue (.ptrSome (.ptrSome p)) true
        = generatePtrValue (.ptrSome (.ptrSome p)) false)
    ∧ (∀ e : GoType,
      generatePtrValue (.ptrSome (.ptrNil e)) true
        = generatePtrValue (.ptrSome (.ptrNil e)) false)
    ∧ (∀ (ty : GoType) (b : Bool),
      generatePtrValue (.ptrSome (.chanV ty b)) true
        = generatePtrValue (.ptrSome (.chanV ty b)) false)
    ∧ (∀ b : Bool,
      generatePtrValue (.ptrSome (.funcV b)) true
        = generatePtrValue (.ptrSome (.funcV b)) false) := by
  refine ⟨fun _ _ _ => rfl, fun _ _ => rfl, fun _ _ _ _ => rfl, fun _ => rfl,
    fun _ => rfl, fun _ _ => rfl, fun _ => rfl⟩

end KubeCodegen

